import Mathlib

/-!
Verification of the VTS_Voice_Controller event bus, intent resolver,
emotion pipeline and trigger-table synchronizer, shallowly embedded from
the Python sources.  Python dicts are modelled as insertion-ordered
association lists, asyncio queues as FIFO lists, and the event-loop clock
as an integer.
-/

namespace VTS

/-- Association-list lookup, modelling Python dict access by key
(first matching key wins; Python dict keys are unique). -/
def alookup {β : Type} (l : List (String × β)) (k : String) : Option β :=
  (l.find? (fun kv => kv.1 == k)).map Prod.snd

/-- Key-membership test, modelling the Python `in` operator on a dict. -/
def hasKey {β : Type} (l : List (String × β)) (k : String) : Bool :=
  (alookup l k).isSome

/-- Dict update, modelling `d[k] = v`: replaces the value at an existing
key in place, otherwise appends (Python insertion order). -/
def aset {β : Type} : List (String × β) → String → β → List (String × β)
  | [], k, v => [(k, v)]
  | kv :: rest, k, v => if kv.1 == k then (k, v) :: rest else kv :: aset rest k v

theorem alookup_nil {β : Type} (k : String) : alookup ([] : List (String × β)) k = none := rfl

theorem alookup_cons {β : Type} (k' k : String) (v : β) (l : List (String × β)) :
    alookup ((k', v) :: l) k = if k' == k then some v else alookup l k := by
  by_cases h : k' == k
  · simp [alookup, List.find?_cons_of_pos, h]
  · simp only [Bool.not_eq_true] at h
    simp [alookup, List.find?_cons_of_neg, h]

theorem alookup_aset_self {β : Type} (l : List (String × β)) (k : String) (v : β) :
    alookup (aset l k v) k = some v := by
  induction l with
  | nil => simp [aset, alookup_cons]
  | cons kv rest ih =>
    rcases kv with ⟨k', v'⟩
    by_cases h : k' == k
    · simp [aset, h, alookup_cons]
    · simp only [Bool.not_eq_true] at h
      simp [aset, h, alookup_cons, ih]

theorem alookup_aset_ne {β : Type} (l : List (String × β)) (k k' : String) (v : β)
    (h : k ≠ k') : alookup (aset l k v) k' = alookup l k' := by
  induction l with
  | nil => simp [aset, alookup_cons, alookup_nil, h]
  | cons kv rest ih =>
    rcases kv with ⟨k0, v0⟩
    by_cases hk : k0 == k
    · have hkk : k0 = k := by simpa using hk
      subst hkk
      simp [aset, hk, alookup_cons, h]
    · simp only [Bool.not_eq_true] at hk
      simp [aset, hk, alookup_cons, ih]

theorem alookup_append {β : Type} (l₁ l₂ : List (String × β)) (k : String) :
    alookup (l₁ ++ l₂) k = ((alookup l₁ k).orElse (fun _ => alookup l₂ k)) := by
  induction l₁ with
  | nil => simp [alookup_nil, alookup]
  | cons kv rest ih =>
    rcases kv with ⟨k', v⟩
    by_cases h : k' == k
    · simp [alookup_cons, h]
    · simp only [Bool.not_eq_true] at h
      simp [alookup_cons, h, ih]

theorem alookup_filter_key {β : Type} (l : List (String × β)) (q : String → Bool) (k : String) :
    alookup (l.filter (fun kv => q kv.1)) k = if q k then alookup l k else none := by
  induction l with
  | nil => simp [alookup_nil]
  | cons kv rest ih =>
    rcases kv with ⟨k', v⟩
    by_cases hq : q k'
    · by_cases h : k' == k
      · have hkk : k' = k := by simpa using h
        subst hkk
        simp [List.filter, hq, alookup_cons, h]
      · simp only [Bool.not_eq_true] at h
        simp [List.filter, hq, alookup_cons, h, ih]
    · by_cases h : k' == k
      · have hkk : k' = k := by simpa using h
        subst hkk
        simp only [Bool.not_eq_true] at hq
        simp [List.filter, hq, alookup_cons, ih]
      · simp only [Bool.not_eq_true] at h hq
        simp [List.filter, hq, alookup_cons, h, ih]

/-! ### Event bus (src/core/event_bus.py) -/

/-- An event on the bus: `Event(event_type, payload)`. -/
structure Event (α : Type) where
  event_type : String
  payload : α
deriving DecidableEq

/-- The bus state: the `_queues` dict, one FIFO queue per topic. -/
structure EventBus (α : Type) where
  queues : List (String × List (Event α))
deriving DecidableEq

/-- `EventBus.get_queue`: creates the queue on first touch, then returns it
(here: the state after the touch; the handle is the topic string). -/
def get_queue {α : Type} (b : EventBus α) (event_type : String) : EventBus α :=
  if hasKey b.queues event_type then b else ⟨b.queues ++ [(event_type, [])]⟩

/-- The queue currently held for a topic, if any. -/
def queueOf {α : Type} (b : EventBus α) (event_type : String) : Option (List (Event α)) :=
  alookup b.queues event_type

/-- `EventBus.publish`: enqueues the event only when the topic already has
a queue (`if event_type in self._queues`); otherwise the bus is unchanged
and the event is dropped. -/
def publish {α : Type} (b : EventBus α) (event_type : String) (payload : α) : EventBus α :=
  match alookup b.queues event_type with
  | some q => ⟨aset b.queues event_type (q ++ [⟨event_type, payload⟩])⟩
  | none => b

/-- `EventBus.subscribe`: returns the queue for the topic via `get_queue`. -/
def subscribe {α : Type} (b : EventBus α) (event_type : String) : EventBus α :=
  get_queue b event_type

/-- A consumer draining the topic queue (`queue.get()`): pops the head if
an event is queued. -/
def qget {α : Type} (b : EventBus α) (event_type : String) : Option (Event α) × EventBus α :=
  match alookup b.queues event_type with
  | some (e :: rest) => (some e, ⟨aset b.queues event_type rest⟩)
  | some [] => (none, b)
  | none => (none, b)

theorem queueOf_get_queue {α : Type} (b : EventBus α) (t : String) :
    queueOf (get_queue b t) t = some ((queueOf b t).getD []) := by
  unfold get_queue queueOf
  by_cases h : hasKey b.queues t
  · simp only [h, if_true]
    unfold hasKey at h
    cases hq : alookup b.queues t with
    | none => rw [hq] at h; simp at h
    | some q => simp [hq]
  · simp only [h]
    unfold hasKey at h
    cases hq : alookup b.queues t with
    | some q => rw [hq] at h; simp at h
    | none =>
      simp only [Bool.false_eq_true, if_false]
      show alookup (b.queues ++ [(t, [])]) t = _
      rw [alookup_append, hq]
      simp [alookup_cons]

/-! ### Intent resolution and cooldown arbitration
(src/core/intent_resolver.py, src/core/application_core.py) -/

/-- One value of the session expression map:
a dict holding `hotkeyID` and `cooldown_s`; `cooldown_s` may be absent
(the resolver reads it with `.get("cooldown_s", 0)`). -/
structure TriggerData where
  hotkeyID : String
  cooldown_s : Option Int
deriving DecidableEq

/-- Substring test, modelling the Python `in` operator on strings. -/
def str_contains (haystack needle : String) : Bool :=
  decide (List.IsInfix needle.data haystack.data)

/-- Lowercasing, modelling `str.lower()` characterwise. -/
def lower_str (s : String) : String :=
  ⟨s.data.map Char.toLower⟩

/-- `KeywordIntentResolver._find_matching_keyword` combined with the dict
lookup that follows it: the first key of the expression map that occurs in
the transcription, together with its entry. -/
def find_matching_keyword (m : List (String × TriggerData)) (transcription : String) :
    Option (String × TriggerData) :=
  m.find? (fun kv => str_contains transcription kv.1)

/-- Active cooldowns: `hotkey_id -> cooldown end time` (event-loop clock). -/
abbrev CooldownMap := List (String × Int)

/-- The uncaught exception raised by the cooldown helpers of
`KeywordIntentResolver`: the module references `asyncio` without ever
importing it, so `asyncio.get_event_loop()` raises `NameError`. -/
def asyncio_name_error : String := "NameError: asyncio is not defined"

/-- `KeywordIntentResolver._is_hotkey_on_cooldown`: a lookup miss, or a
falsy (zero) stored end time, short-circuits to False without touching
the clock; a truthy stored end time reaches
`asyncio.get_event_loop().time()`, which raises `NameError` because
intent_resolver.py never imports asyncio. -/
def is_hotkey_on_cooldown (cooldowns : CooldownMap) (hotkey_id : String) :
    Except String Bool :=
  match alookup cooldowns hotkey_id with
  | some endTime =>
    if endTime != 0 then .error asyncio_name_error else .ok false
  | none => .ok false

/-- `KeywordIntentResolver._start_cooldown`: its first statement reads the
event-loop clock through the unimported asyncio module, so it always
raises `NameError` before storing anything in `active_cooldowns`. -/
def start_cooldown (_cooldowns : CooldownMap) (_hotkey_id : String) (_cooldown_s : Int) :
    Except String CooldownMap :=
  .error asyncio_name_error

/-- Outcome of the arbitration of `resolve_intent` lines 29-39 for one
resolved trigger: the cooldown map afterwards, whether the hotkey was
published (the publish precedes the arming attempt), and the uncaught
exception if one was raised. -/
structure GateOutcome where
  cooldowns : CooldownMap
  fired : Bool
  crash : Option String
deriving DecidableEq

/-- The arbitration of `resolve_intent` (lines 29-39): the on-cooldown
check (which can itself raise), then the publish, then — when
`cooldown_s > 0` — the arming attempt, which raises `NameError` after the
publish has already happened. -/
def cooldown_gate (cooldowns : CooldownMap) (hotkey_id : String) (cooldown_s : Int) :
    GateOutcome :=
  match is_hotkey_on_cooldown cooldowns hotkey_id with
  | .error e => ⟨cooldowns, false, some e⟩
  | .ok true => ⟨cooldowns, false, none⟩
  | .ok false =>
    if cooldown_s > 0 then
      match start_cooldown cooldowns hotkey_id cooldown_s with
      | .error e => ⟨cooldowns, true, some e⟩
      | .ok st => ⟨st, true, none⟩
    else ⟨cooldowns, true, none⟩

/-- Outcome of one resolver iteration: the cooldown map afterwards, the
hotkey published during the iteration, and the uncaught exception, if one
was raised. -/
structure StepOutcome where
  cooldowns : CooldownMap
  dispatched : Option String
  crash : Option String
deriving DecidableEq

/-- One iteration of `KeywordIntentResolver.resolve_intent` on a
transcription event: lowercase, match the first keyword, then arbitrate.
The source never reads a timestamp successfully, so no time parameter
appears. -/
def resolve_step (m : List (String × TriggerData)) (cooldowns : CooldownMap)
    (transcription : String) : StepOutcome :=
  match find_matching_keyword m (lower_str transcription) with
  | none => ⟨cooldowns, none, none⟩
  | some (_, d) =>
    let g := cooldown_gate cooldowns d.hotkeyID (d.cooldown_s.getD 0)
    ⟨g.cooldowns, if g.fired then some d.hotkeyID else none, g.crash⟩

/-- A run of the resolver loop over a sequence of transcription events:
the `while True` body has no exception handler, so the first uncaught
exception ends the task — later events are never consumed.  Returns the
final cooldown map, the per-processed-event dispatch decisions, and the
exception that killed the task, if any. -/
def resolve_run (m : List (String × TriggerData)) :
    List String → CooldownMap → CooldownMap × List (Option String) × Option String
  | [], st => (st, [], none)
  | tr :: rest, st =>
    let s := resolve_step m st tr
    match s.crash with
    | some e => (s.cooldowns, [s.dispatched], some e)
    | none =>
      let r := resolve_run m rest s.cooldowns
      (r.1, s.dispatched :: r.2.1, r.2.2)

/-- `EMOTION_COOLDOWN_SECONDS` from src/core/application_core.py. -/
def EMOTION_COOLDOWN_SECONDS : Int := 5

/-- The cooldown arbitration of `ApplicationCore._handle_emotion_events`:
fire when strictly more than `EMOTION_COOLDOWN_SECONDS` has passed since
the last recorded dispatch of this hotkey (`.get(hotkey_id, 0)` defaults
the last dispatch time to 0), recording `now` on dispatch. -/
def emotion_gate (cooldowns : CooldownMap) (hotkey_id : String) (now : Int) :
    CooldownMap × Bool :=
  let last := (alookup cooldowns hotkey_id).getD 0
  if now - last > EMOTION_COOLDOWN_SECONDS then (aset cooldowns hotkey_id now, true)
  else (cooldowns, false)

/-- One iteration of `ApplicationCore._handle_emotion_events` on an
emotion event: exact lookup in the emotion-to-hotkey mapping (with the
Python truthiness guards), then the emotion cooldown arbitration. -/
def handle_emotion_step (mappings : List (String × String)) (cooldowns : CooldownMap)
    (emotion : String) (now : Int) : CooldownMap × Option String :=
  if emotion == "" then (cooldowns, none)
  else
    match alookup mappings emotion with
    | none => (cooldowns, none)
    | some hid =>
      if hid != "" && hid != "null" then
        let r := emotion_gate cooldowns hid now
        (r.1, if r.2 then some hid else none)
      else (cooldowns, none)

/-- A run of the transcript-path arbitration over already-resolved
triggers `(action_id, cooldown_seconds, time)`.  The transcript path
never reads the clock successfully, so the time component is never
consulted; an uncaught exception ends the run, leaving later triggers
unprocessed. -/
def transcript_gate_run :
    List (String × Int × Int) → CooldownMap → CooldownMap × List Bool × Option String
  | [], st => (st, [], none)
  | (hid, cs, _) :: rest, st =>
    let g := cooldown_gate st hid cs
    match g.crash with
    | some e => (g.cooldowns, [g.fired], some e)
    | none =>
      let r := transcript_gate_run rest g.cooldowns
      (r.1, g.fired :: r.2.1, r.2.2)

/-- A run of the emotion-path arbitration over the same trigger shape;
the per-entry cooldown component is not consulted by this path. -/
def emotion_gate_run :
    List (String × Int × Int) → CooldownMap → CooldownMap × List Bool
  | [], st => (st, [])
  | (hid, _, now) :: rest, st =>
    let s := emotion_gate st hid now
    let r := emotion_gate_run rest s.1
    (r.1, s.2 :: r.2)

/-! ### Emotion detection loop (src/inputs/emotion_detector.py) -/

/-- The per-frame state update of `CnnEmotionDetector.start_detection`:
given the previously recorded label and the freshly classified label,
record and publish the new label only when it differs. -/
def detect_step (detected current : String) : String × Option String :=
  if current != detected then (current, some current) else (detected, none)

/-- The published `emotion_detected` labels produced by the detection loop
over a sequence of per-frame classified labels, starting from the recorded
label `detected` (set to "neutral" when the detector is constructed). -/
def detect_run (detected : String) : List String → List String
  | [] => []
  | c :: rest =>
    let s := detect_step detected c
    (match s.2 with
     | some x => [x]
     | none => []) ++ detect_run s.1 rest

/-! ### Periodic audio-processing tick
(src/inputs/asr_processor.py, `process_audio_buffer_periodically`) -/

/-- The periodic audio-processing loop: each tick first absorbs the audio
that arrived since the previous tick, then, when the buffer is nonempty,
runs the decode call and clears the buffer.  The decode call is the
abstracted `_transcribe_np`; a raised exception is an `Except.error`.
The loop body has no exception handler, so an error ends the recursion,
carrying the buffer contents at the moment of failure; on success an
emitted nonempty text is published. -/
def process_audio_buffer (decode : List Int → Except String String) :
    List (List Int) → List Int → Except (String × List Int) (List Int × List String)
  | [], buf => .ok (buf, [])
  | arrival :: rest, buf =>
    let b := buf ++ arrival
    if b.isEmpty then process_audio_buffer decode rest b
    else
      match decode b with
      | .error e => .error (e, b)
      | .ok text =>
        match process_audio_buffer decode rest [] with
        | .error r => .error r
        | .ok (fb, outs) => .ok (fb, (if text != "" then [text] else []) ++ outs)

/-! ### Trigger-table synchronizer (src/core/expression_service.py) -/

/-- One `ToggleExpression` hotkey as reported by VTube Studio:
the fields `file`, `name` and `hotkeyID`. -/
structure VtsExpression where
  file : String
  name : String
  hotkeyID : String
deriving DecidableEq

/-- One entry of the persisted `expressions` mapping, keyed by file:
the fields `name`, `keywords` and `cooldown_s` (read with default 60). -/
structure YamlEntry where
  name : String
  keywords : List String
  cooldown_s : Option Int
deriving DecidableEq

/-- The placeholder keyword synthesized for a newly discovered expression. -/
def placeholder_keyword (name : String) : String :=
  "KEYWORD_" ++ name.replace " " "_"

/-- The entry synthesized by `_update_config_file` for a remote expression
with no local entry. -/
def synth_entry (e : VtsExpression) : YamlEntry :=
  ⟨e.name, [placeholder_keyword e.name], some 60⟩

/-- The set (list) of file keys reported by VTube Studio. -/
def vts_files (vts : List VtsExpression) : List String :=
  vts.map (·.file)

/-- The first loop of `_update_config_file`: append a synthesized entry
for every remote file key missing from the current mapping, flagging an
update. -/
def add_missing : List VtsExpression → List (String × YamlEntry) → Bool →
    List (String × YamlEntry) × Bool
  | [], cur, upd => (cur, upd)
  | e :: rest, cur, upd =>
    if hasKey cur e.file then add_missing rest cur upd
    else add_missing rest (cur ++ [(e.file, synth_entry e)]) true

/-- The second loop of `_update_config_file`: drop every local key with no
matching remote file key, flagging an update when anything was dropped. -/
def prune_stale (cur : List (String × YamlEntry)) (files : List String) :
    List (String × YamlEntry) × Bool :=
  (cur.filter (fun kv => files.contains kv.1),
   cur.any (fun kv => !(files.contains kv.1)))

/-- `ExpressionService._update_config_file`: merge the remote expression
list into the local mapping; the returned flag records whether the config
file was rewritten (`save_yaml` runs exactly when it is true). -/
def update_config_file (vts : List VtsExpression) (yaml : List (String × YamlEntry)) :
    List (String × YamlEntry) × Bool :=
  let a := add_missing vts yaml false
  let p := prune_stale a.1 (vts_files vts)
  (p.1, a.2 || p.2)

/-- The `file_to_hotkey_id` dict comprehension: for duplicate files the
last occurrence wins, as in a Python dict comprehension. -/
def file_to_hotkey_id (vts : List VtsExpression) (f : String) : Option String :=
  (vts.reverse.find? (fun e => e.file == f)).map (·.hotkeyID)

/-- The keyword-insertion loop of `_build_session_expression_map` for one
mapping entry: every keyword, lowercased, maps to the trigger data of the
entry. -/
def add_keywords (hid : String) (data : YamlEntry) (acc : List (String × TriggerData)) :
    List (String × TriggerData) :=
  data.keywords.foldl
    (fun a kw => aset a (lower_str kw) ⟨hid, some (data.cooldown_s.getD 60)⟩) acc

/-- The entry loop of `_build_session_expression_map` (accumulator form):
entries whose file has a truthy live hotkey contribute their keywords. -/
def build_session_go (vts : List VtsExpression) :
    List (String × YamlEntry) → List (String × TriggerData) → List (String × TriggerData)
  | [], acc => acc
  | (f, data) :: rest, acc =>
    match file_to_hotkey_id vts f with
    | some hid =>
      if hid != "" then build_session_go vts rest (add_keywords hid data acc)
      else build_session_go vts rest acc
    | none => build_session_go vts rest acc

/-- `ExpressionService._build_session_expression_map`. -/
def build_session_expression_map (yaml : List (String × YamlEntry))
    (vts : List VtsExpression) : List (String × TriggerData) :=
  build_session_go vts yaml []

/-- `ExpressionService.synchronize_and_get_map`: returns the session map,
the mapping the service now holds, and whether the persisted file was
rewritten.  With no remote expressions the local mapping is used as is and
nothing is written. -/
def synchronize_and_get_map (vts : List VtsExpression)
    (yaml : List (String × YamlEntry)) :
    List (String × TriggerData) × List (String × YamlEntry) × Bool :=
  if vts.isEmpty then (build_session_expression_map yaml [], yaml, false)
  else
    let u := update_config_file vts yaml
    (build_session_expression_map u.1 vts, u.1, u.2)

/-! ### Claim C2: publish and queue creation -/

/-- C2 counterexample: on a fresh bus, `publish` does not create the
queue of topic "t" and the event is dropped; a subscriber arriving
afterwards finds an empty queue rather than the published event. -/
theorem C2_counterexample :
    publish (⟨[]⟩ : EventBus String) "t" "p" = ⟨[]⟩ ∧
    queueOf (subscribe (publish (⟨[]⟩ : EventBus String) "t" "p") "t") "t" = some [] ∧
    queueOf (subscribe (publish (⟨[]⟩ : EventBus String) "t" "p") "t") "t" ≠
      some [⟨"t", "p"⟩] := by
  refine ⟨rfl, rfl, ?_⟩
  decide

/-- C2 amended: `publish(topic, payload)` enqueues onto the topic queue
only when that queue already exists; when the topic has no queue yet the
bus is left unchanged and the event is silently dropped, so an event
published before any subscribe on its topic is lost. -/
theorem C2_publish (α : Type) (b : EventBus α) (t : String) (p : α) :
    (hasKey b.queues t = false → publish b t p = b) ∧
    (∀ q, queueOf b t = some q → queueOf (publish b t p) t = some (q ++ [⟨t, p⟩])) := by
  constructor
  · intro h
    unfold publish
    unfold hasKey at h
    cases hq : alookup b.queues t with
    | none => simp
    | some q => rw [hq] at h; simp at h
  · intro q hq
    unfold publish queueOf
    unfold queueOf at hq
    rw [hq]
    simp [alookup_aset_self]

/-- C2 witness: the amended behavior at concrete inputs — a publish on a
fresh bus is dropped, a publish on an existing queue is appended. -/
theorem C2_publish_witness :
    publish (⟨[]⟩ : EventBus String) "t" "p" = ⟨[]⟩ ∧
    queueOf (publish (⟨[("t", [])]⟩ : EventBus String) "t" "p") "t" =
      some [⟨"t", "p"⟩] :=
  ⟨(C2_publish String ⟨[]⟩ "t" "p").1 rfl,
   (C2_publish String ⟨[("t", [])]⟩ "t" "p").2 [] rfl⟩

/-! ### Claim C9: shared per-topic queue and exactly-once delivery -/

/-- C9 counterexample: the topic queue is created on first touch of the
subscribe side only — a publish on a fresh bus creates nothing. -/
theorem C9_counterexample :
    queueOf (publish (⟨[]⟩ : EventBus String) "t" "p") "t" = none ∧
    queueOf (subscribe (⟨[]⟩ : EventBus String) "t") "t" = some [] :=
  ⟨rfl, rfl⟩

/-- C9 amended: every `subscribe(T)` returns the same queue — a second
subscribe leaves the bus unchanged, and the handle reads back the existing
queue (created empty on first subscribe); `publish` never creates the
queue; and a consumer `get` pops the head event, removing it from the
shared queue, so each event is delivered to exactly one consumer. -/
theorem C9_shared_queue (α : Type) (b : EventBus α) (t : String) :
    subscribe (subscribe b t) t = subscribe b t ∧
    queueOf (subscribe b t) t = some ((queueOf b t).getD []) ∧
    (∀ p : α, hasKey (publish b t p).queues t = hasKey b.queues t) ∧
    (∀ (e : Event α) (rest : List (Event α)), queueOf b t = some (e :: rest) →
      (qget b t).1 = some e ∧ queueOf (qget b t).2 t = some rest) := by
  refine ⟨?_, queueOf_get_queue b t, ?_, ?_⟩
  · have h := queueOf_get_queue b t
    simp only [subscribe]
    generalize hB : get_queue b t = B at h ⊢
    have hk : hasKey B.queues t = true := by
      unfold hasKey
      unfold queueOf at h
      rw [h]
      rfl
    unfold get_queue
    simp [hk]
  · intro p
    unfold publish
    cases hq : alookup b.queues t with
    | none => simp
    | some q =>
      unfold hasKey
      simp [alookup_aset_self, hq]
  · intro e rest hq
    unfold queueOf at hq
    unfold qget
    rw [hq]
    simp [queueOf, alookup_aset_self]

/-- C9 witness: applying the theorem on a bus whose "t" queue holds two
events — the first consumer takes the first event, and it is gone. -/
theorem C9_shared_queue_witness :
    (qget (⟨[("t", [⟨"t", "p1"⟩, ⟨"t", "p2"⟩])]⟩ : EventBus String) "t").1 =
      some ⟨"t", "p1"⟩ ∧
    queueOf (qget (⟨[("t", [⟨"t", "p1"⟩, ⟨"t", "p2"⟩])]⟩ : EventBus String) "t").2 "t" =
      some [⟨"t", "p2"⟩] :=
  (C9_shared_queue String ⟨[("t", [⟨"t", "p1"⟩, ⟨"t", "p2"⟩])]⟩ "t").2.2.2
    ⟨"t", "p1"⟩ [⟨"t", "p2"⟩] rfl

/-! ### Claim C5: per-tick decode exceptions -/

/-- A decoder that raises on the chunk `[1]` and decodes anything else. -/
def cex_decode : List Int → Except String String :=
  fun b => if b = [1] then .error "boom" else .ok "t"

/-- C5 counterexample: when the decode call of the first tick raises, the
loop does not continue and the buffer is not cleared — the run ends in the
error with the undecoded buffer still held, instead of the outcome the
claim predicts (buffer cleared, second tick decoding "t"). -/
theorem C5_counterexample :
    process_audio_buffer cex_decode [[1], [2]] [] = .error ("boom", [1]) ∧
    process_audio_buffer cex_decode [[1], [2]] [] ≠ .ok ([], ["t"]) := by
  have h1 : process_audio_buffer cex_decode [[1], [2]] [] = .error ("boom", [1]) := rfl
  refine ⟨h1, ?_⟩
  intro h2
  rw [h1] at h2
  exact Except.noConfusion h2

/-- C5 amended: a decode exception in one periodic tick is not caught by
the loop: it propagates out of the audio-processing task, the utterance
buffer is left uncleared (the error carries the full undecoded buffer),
and no further tick runs. -/
theorem C5_tick_error (decode : List Int → Except String String)
    (rest : List (List Int)) (buf a : List Int) (e : String)
    (hne : buf ++ a ≠ []) (hdec : decode (buf ++ a) = .error e) :
    process_audio_buffer decode (a :: rest) buf = .error (e, buf ++ a) := by
  have hne' : (buf ++ a).isEmpty = false := by
    cases hl : buf ++ a with
    | nil => exact absurd hl hne
    | cons x xs => rfl
  simp only [process_audio_buffer]
  rw [hne', hdec]
  simp

/-- C5 witness: the amended behavior at the concrete failing input. -/
theorem C5_tick_error_witness :
    process_audio_buffer cex_decode [[1], [2]] [] = .error ("boom", [1]) :=
  C5_tick_error cex_decode [[2]] [] [1] "boom" (by decide) rfl

/-! ### Claim C6: edge-triggered emotion events -/

/-- C6: the labels published by the detection loop are exactly the
adjacent-change points of the label stream after prepending the recorded
label — `destutter'` with the inequality relation — and the scenario
`neutral, happiness, happiness, sad` from the initial recorded label
"neutral" publishes exactly `happiness` then `sad`. -/
theorem C6_edge_triggered :
    (∀ (detected : String) (labels : List String),
      detected :: detect_run detected labels =
        List.destutter' (· ≠ ·) detected labels) ∧
    detect_run "neutral" ["neutral", "happiness", "happiness", "sad"] =
      ["happiness", "sad"] := by
  constructor
  · intro detected labels
    induction labels generalizing detected with
    | nil => simp [detect_run, List.destutter']
    | cons c rest ih =>
      by_cases h : c = detected
      · subst h
        simp [detect_run, detect_step, List.destutter', ih]
      · have hb : (c != detected) = true := by simp [h]
        have hne : detected ≠ c := fun hx => h hx.symm
        simp [detect_run, detect_step, hb, List.destutter', hne, ← ih]
  · decide

/-! ### Claim C1: anti-spam policy of the transcript dispatch path -/

theorem cooldown_gate_cooldowns (st : CooldownMap) (hid : String) (cs : Int) :
    (cooldown_gate st hid cs).cooldowns = st := by
  unfold cooldown_gate
  cases h : is_hotkey_on_cooldown st hid with
  | error e => rfl
  | ok b =>
    cases b with
    | true => rfl
    | false =>
      by_cases hcs : cs > 0
      · simp [hcs, start_cooldown]
      · simp [hcs]

theorem resolve_step_cooldowns (m : List (String × TriggerData)) (st : CooldownMap)
    (tr : String) : (resolve_step m st tr).cooldowns = st := by
  unfold resolve_step
  cases hfind : find_matching_keyword m (lower_str tr) with
  | none => rfl
  | some kd => exact cooldown_gate_cooldowns st kd.2.hotkeyID (kd.2.cooldown_s.getD 0)

theorem resolve_run_cooldowns (m : List (String × TriggerData)) :
    ∀ (evs : List String) (st : CooldownMap), (resolve_run m evs st).1 = st := by
  intro evs
  induction evs with
  | nil => intro st; rfl
  | cons tr rest ih =>
    intro st
    simp only [resolve_run]
    cases hc : (resolve_step m st tr).crash with
    | some e => exact resolve_step_cooldowns m st tr
    | none => rw [ih]; exact resolve_step_cooldowns m st tr

/-- The Scenario B trigger table: "hello" mapped to hotkey "hk1" with a
10-second cooldown. -/
def c1_map : List (String × TriggerData) := [("hello", ⟨"hk1", some 10⟩)]

/-- C1 counterexample: two consecutive "hello" transcripts produce ONE
dispatch, not two — the first dispatch is published and then the resolver
task dies with `NameError` inside `_start_cooldown` (asyncio is never
imported in intent_resolver.py), so the second transcript is never even
consumed. -/
theorem C1_counterexample :
    resolve_run c1_map ["hello", "hello"] [] =
      ([], [some "hk1"], some asyncio_name_error) ∧
    (resolve_run c1_map ["hello", "hello"] []).2.1 ≠ [some "hk1", some "hk1"] := by
  refine ⟨rfl, ?_⟩
  decide

/-- C1 amended: in `KeywordIntentResolver`, the first occurrence of an
action whose entry has positive cooldown_seconds is dispatched once, and
the resolver then dies with `NameError` while arming the cooldown
(intent_resolver.py never imports asyncio): `active_cooldowns` is left
unchanged, no cooldown is armed, and no later transcript is ever
processed — so two consecutive transcripts matching the same keyword
produce exactly one dispatch, and nothing ever re-dispatches. -/
theorem C1_first_dispatch_crash (m : List (String × TriggerData)) (tr k : String)
    (d : TriggerData) (rest : List String) (st : CooldownMap)
    (hfind : find_matching_keyword m (lower_str tr) = some (k, d))
    (hcs : 0 < d.cooldown_s.getD 0)
    (hst : alookup st d.hotkeyID = none) :
    resolve_run m (tr :: rest) st =
      (st, [some d.hotkeyID], some asyncio_name_error) := by
  have hno : is_hotkey_on_cooldown st d.hotkeyID = .ok false := by
    simp [is_hotkey_on_cooldown, hst]
  have hstep : resolve_step m st tr =
      ⟨st, some d.hotkeyID, some asyncio_name_error⟩ := by
    simp only [resolve_step, hfind]
    simp [cooldown_gate, hno, hcs, start_cooldown]
  simp only [resolve_run, hstep]

/-- C1 witness: the amended theorem at the Scenario B inputs — two
consecutive "hello" transcripts give one dispatch and a dead resolver. -/
theorem C1_first_dispatch_crash_witness :
    resolve_run c1_map ["hello", "hello"] [] =
      ([], [some "hk1"], some asyncio_name_error) :=
  C1_first_dispatch_crash c1_map "hello" "hello" ⟨"hk1", some 10⟩ ["hello"] []
    rfl (by decide) rfl

/-! ### Claim C3: emotion vs transcript cooldown arbitration -/

/-- C3 counterexample: on the single trigger of action "H" with entry
cooldown 10 at time 0, the transcript path dispatches (and then its task
dies with `NameError` while arming), while the emotion path drops the
trigger (its last-dispatch default of 0 puts time 0 inside the fixed
5-second window) and keeps running — the two arbitrations are not the
same function and produce different dispatch sequences. -/
theorem C3_counterexample :
    (transcript_gate_run [("H", 10, 0)] []).2.1 = [true] ∧
    (transcript_gate_run [("H", 10, 0)] []).2.2 = some asyncio_name_error ∧
    (emotion_gate_run [("H", 10, 0)] []).2 = [false] ∧
    (transcript_gate_run [("H", 10, 0)] []).2.1 ≠
      (emotion_gate_run [("H", 10, 0)] []).2 := by
  refine ⟨rfl, rfl, rfl, ?_⟩
  decide

/-- C3 amended: the two dispatch paths arbitrate differently.  The
emotion path reads the event-loop clock and dispatches exactly when
strictly more than 5 seconds have passed since the recorded last dispatch
(defaulting to time 0), ignoring the per-entry cooldown entirely.  The
transcript path never reads the clock successfully and never consults the
trigger times: a trigger whose hotkey has no (or a falsy) stored expiry
fires, and when its cooldown_seconds is positive the resolver then dies
with `NameError` (asyncio is unimported in intent_resolver.py), leaving
every later trigger unprocessed; with nonpositive cooldown_seconds the
run continues unchanged. -/
theorem C3_different_arbitration (st : CooldownMap) (hid : String) (cs now : Int) :
    ((emotion_gate st hid now).2 = true ↔
      (alookup st hid).getD 0 + EMOTION_COOLDOWN_SECONDS < now) ∧
    (∀ (seq : List (String × Int × Int)) (g : String × Int × Int → Int)
       (st0 : CooldownMap),
      emotion_gate_run (seq.map (fun x => (x.1, g x, x.2.2))) st0 =
        emotion_gate_run seq st0) ∧
    (∀ (seq : List (String × Int × Int)) (g : String × Int × Int → Int)
       (st0 : CooldownMap),
      transcript_gate_run (seq.map (fun x => (x.1, x.2.1, g x))) st0 =
        transcript_gate_run seq st0) ∧
    (∀ rest : List (String × Int × Int), alookup st hid = none → 0 < cs →
      transcript_gate_run ((hid, cs, now) :: rest) st =
        (st, [true], some asyncio_name_error)) ∧
    (∀ rest : List (String × Int × Int), alookup st hid = none → cs ≤ 0 →
      transcript_gate_run ((hid, cs, now) :: rest) st =
        ((transcript_gate_run rest st).1,
         true :: (transcript_gate_run rest st).2.1,
         (transcript_gate_run rest st).2.2)) := by
  refine ⟨?_, ?_, ?_, ?_, ?_⟩
  · by_cases hcnd : now - (alookup st hid).getD 0 > EMOTION_COOLDOWN_SECONDS
    · simp only [emotion_gate]
      rw [if_pos hcnd]
      simp only [EMOTION_COOLDOWN_SECONDS] at hcnd ⊢
      constructor
      · intro _
        omega
      · intro _
        trivial
    · simp only [emotion_gate]
      rw [if_neg hcnd]
      simp only [EMOTION_COOLDOWN_SECONDS] at hcnd ⊢
      simp only [Bool.false_eq_true, false_iff]
      omega
  · intro seq g st0
    induction seq generalizing st0 with
    | nil => rfl
    | cons x rest ih =>
      rcases x with ⟨h0, c0, n0⟩
      simp only [List.map, emotion_gate_run, ih]
  · intro seq g st0
    induction seq generalizing st0 with
    | nil => rfl
    | cons x rest ih =>
      rcases x with ⟨h0, c0, n0⟩
      simp only [List.map, transcript_gate_run]
      cases hc : (cooldown_gate st0 h0 c0).crash with
      | some e => rfl
      | none => simp only [ih]
  · intro rest hst hcs
    have hno : is_hotkey_on_cooldown st hid = .ok false := by
      simp [is_hotkey_on_cooldown, hst]
    simp only [transcript_gate_run]
    simp [cooldown_gate, hno, hcs, start_cooldown]
  · intro rest hst hcs
    have hno : is_hotkey_on_cooldown st hid = .ok false := by
      simp [is_hotkey_on_cooldown, hst]
    have hgate : cooldown_gate st hid cs = ⟨st, true, none⟩ := by
      have hcs' : ¬cs > 0 := by omega
      simp [cooldown_gate, hno, hcs']
    simp only [transcript_gate_run, hgate]

/-- C3 witness: the amended theorem at a concrete trigger — a positive
per-entry cooldown makes the transcript path fire once and die, something
the emotion path never does. -/
theorem C3_different_arbitration_witness :
    transcript_gate_run [("H", 10, 0)] [] = ([], [true], some asyncio_name_error) :=
  (C3_different_arbitration [] "H" 10 0).2.2.2.1 [] rfl (by decide)

/-! ### Claim C10: zero- or absent-cooldown entries -/

/-- A table where the zero-cooldown entry "a" shares hotkey "H" with the
positive-cooldown entry "b". -/
def c10_map : List (String × TriggerData) :=
  [("b", ⟨"H", some 10⟩), ("a", ⟨"H", some 0⟩)]

/-- C10 counterexample: the transcript "a" has the zero-cooldown entry as
its first match, yet it is never dispatched — processing "b" published
"H" once and then killed the resolver with `NameError` inside
`_start_cooldown`, so the run ends after one event and "a" is never
consumed (and `active_cooldowns` stays empty throughout). -/
theorem C10_counterexample :
    find_matching_keyword c10_map (lower_str "a") = some ("a", ⟨"H", some 0⟩) ∧
    resolve_run c10_map ["b", "a"] [] =
      ([], [some "H"], some asyncio_name_error) ∧
    (resolve_run c10_map ["b", "a"] []).2.1 ≠ [some "H", some "H"] := by
  refine ⟨rfl, rfl, ?_⟩
  decide

/-- C10 amended: the resolver never inserts ANY hotkey into
`active_cooldowns` (the arming helper raises `NameError` before its
store), so the on-cooldown check is indeed always false in every reachable
state, and an event whose first match is a zero- or absent-cooldown entry
is dispatched with the state unchanged and no exception.  But "every
transcript containing its keyword as first match is dispatched" needs the
resolver to still be alive: when no entry of the map has a positive
cooldown_s, a run from the initial empty state never crashes and
dispatches exactly the first-match hotkey of every event; an earlier
positive-cooldown dispatch instead kills the task and later transcripts
are never processed at all. -/
theorem C10_zero_cooldown (m : List (String × TriggerData)) :
    (∀ (st : CooldownMap) (tr k : String) (d : TriggerData),
      alookup st d.hotkeyID = none →
      find_matching_keyword m (lower_str tr) = some (k, d) →
      d.cooldown_s.getD 0 = 0 →
      resolve_step m st tr = ⟨st, some d.hotkeyID, none⟩) ∧
    (∀ (evs : List String) (st : CooldownMap), (resolve_run m evs st).1 = st) ∧
    ((∀ kd ∈ m, kd.2.cooldown_s.getD 0 = 0) → ∀ evs : List String,
      (resolve_run m evs []).2.2 = none ∧
      (resolve_run m evs []).2.1 =
        evs.map (fun tr =>
          (find_matching_keyword m (lower_str tr)).map (fun kd => kd.2.hotkeyID))) := by
  refine ⟨?_, resolve_run_cooldowns m, ?_⟩
  · intro st tr k d hst hfind hcs
    have hno : is_hotkey_on_cooldown st d.hotkeyID = .ok false := by
      simp [is_hotkey_on_cooldown, hst]
    simp only [resolve_step, hfind]
    simp [cooldown_gate, hno, hcs]
  · intro hm evs
    induction evs with
    | nil => exact ⟨rfl, rfl⟩
    | cons tr rest ih =>
      have hstep : resolve_step m [] tr =
          ⟨[], (find_matching_keyword m (lower_str tr)).map (fun kd => kd.2.hotkeyID),
           none⟩ := by
        cases hfind : find_matching_keyword m (lower_str tr) with
        | none => simp [resolve_step, hfind]
        | some kd =>
          rcases kd with ⟨k, d⟩
          have hcs : d.cooldown_s.getD 0 = 0 :=
            hm (k, d) (List.mem_of_find?_eq_some hfind)
          have hno : is_hotkey_on_cooldown [] d.hotkeyID = .ok false := rfl
          simp only [resolve_step, hfind, Option.map_some]
          simp [cooldown_gate, hno, hcs]
      simp only [resolve_run, hstep, List.map_cons]
      exact ⟨ih.1, by rw [ih.2]⟩

/-- A table whose only entry carries hotkey "H" with no cooldown field. -/
def c10_ok_map : List (String × TriggerData) := [("a", ⟨"H", none⟩)]

/-- C10 witness: the amended theorem at a concrete table — the event is
dispatched with unchanged state and no exception, and a run over a map
with no positive cooldown never crashes and dispatches every match. -/
theorem C10_zero_cooldown_witness :
    resolve_step c10_ok_map [] "a" = ⟨[], some "H", none⟩ ∧
    (resolve_run c10_ok_map ["a", "a"] []).2.2 = none ∧
    (resolve_run c10_ok_map ["a", "a"] []).2.1 =
      ["a", "a"].map (fun tr =>
        (find_matching_keyword c10_ok_map (lower_str tr)).map
          (fun kd => kd.2.hotkeyID)) := by
  have hc := C10_zero_cooldown c10_ok_map
  exact ⟨hc.1 [] "a" "a" ⟨"H", none⟩ rfl rfl rfl,
    (hc.2.2 (by decide) ["a", "a"]).1, (hc.2.2 (by decide) ["a", "a"]).2⟩

/-! ### Helper lemmas for the synchronizer -/

theorem alookup_append_left {β : Type} (l₁ l₂ : List (String × β)) (k : String) (v : β)
    (h : alookup l₁ k = some v) : alookup (l₁ ++ l₂) k = some v := by
  rw [alookup_append, h]
  rfl

theorem alookup_append_right {β : Type} (l₁ l₂ : List (String × β)) (k : String)
    (h : alookup l₁ k = none) : alookup (l₁ ++ l₂) k = alookup l₂ k := by
  rw [alookup_append, h]
  rfl

theorem hasKey_append {β : Type} (l₁ l₂ : List (String × β)) (k : String) :
    hasKey (l₁ ++ l₂) k = (hasKey l₁ k || hasKey l₂ k) := by
  unfold hasKey
  rw [alookup_append]
  cases alookup l₁ k <;> simp

theorem contains_of_mem_str (l : List String) (a : String) (h : a ∈ l) :
    l.contains a = true :=
  List.elem_iff.mpr h

theorem add_missing_append (vts : List VtsExpression) (cur : List (String × YamlEntry))
    (b : Bool) :
    ∃ extra, (add_missing vts cur b).1 = cur ++ extra ∧
      ∀ kv ∈ extra, kv.1 ∈ vts_files vts := by
  induction vts generalizing cur b with
  | nil => exact ⟨[], by simp [add_missing], by simp⟩
  | cons e rest ih =>
    by_cases hk : hasKey cur e.file
    · obtain ⟨extra, h1, h2⟩ := ih cur b
      refine ⟨extra, by simp [add_missing, hk, h1], fun kv hm => ?_⟩
      exact List.mem_cons_of_mem _ (h2 kv hm)
    · obtain ⟨extra, h1, h2⟩ := ih (cur ++ [(e.file, synth_entry e)]) true
      refine ⟨(e.file, synth_entry e) :: extra, ?_, ?_⟩
      · simp only [add_missing, hk, Bool.false_eq_true, if_false, h1, List.append_assoc,
          List.singleton_append]
      · intro kv hkv
        rcases List.mem_cons.mp hkv with hkv | hkv
        · subst hkv
          exact List.mem_cons_self _ _
        · exact List.mem_cons_of_mem _ (h2 kv hkv)

theorem add_missing_lookup_present (vts : List VtsExpression)
    (cur : List (String × YamlEntry)) (b : Bool) (k : String) (v : YamlEntry)
    (h : alookup cur k = some v) : alookup (add_missing vts cur b).1 k = some v := by
  obtain ⟨extra, h1, _⟩ := add_missing_append vts cur b
  rw [h1]
  exact alookup_append_left _ _ _ _ h

theorem add_missing_hasKey (vts : List VtsExpression) (cur : List (String × YamlEntry))
    (b : Bool) (k : String) (h : hasKey cur k = true) :
    hasKey (add_missing vts cur b).1 k = true := by
  unfold hasKey at h ⊢
  cases hv : alookup cur k with
  | none => rw [hv] at h; simp at h
  | some v => rw [add_missing_lookup_present vts cur b k v hv]; rfl

theorem add_missing_adds (vts : List VtsExpression) (cur : List (String × YamlEntry))
    (b : Bool) (ex : VtsExpression)
    (hfind : vts.find? (fun e0 => e0.file == ex.file) = some ex)
    (hnk : hasKey cur ex.file = false) :
    alookup (add_missing vts cur b).1 ex.file = some (synth_entry ex) := by
  induction vts generalizing cur b with
  | nil => simp at hfind
  | cons e rest ih =>
    by_cases hf : e.file == ex.file
    · have he : e = ex := by
        rw [@List.find?_cons_of_pos _ (fun e0 => e0.file == ex.file) e rest hf] at hfind
        exact Option.some.inj hfind
      subst he
      simp only [add_missing, hnk, Bool.false_eq_true, if_false]
      apply add_missing_lookup_present
      have hnone : alookup cur e.file = none := by
        unfold hasKey at hnk
        cases hv : alookup cur e.file with
        | none => rfl
        | some v => rw [hv] at hnk; simp at hnk
      rw [alookup_append_right _ _ _ hnone, alookup_cons]
      simp
    · have hfind' : rest.find? (fun e0 => e0.file == ex.file) = some ex := by
        rw [@List.find?_cons_of_neg _ (fun e0 => e0.file == ex.file) e rest hf] at hfind
        exact hfind
      by_cases hk : hasKey cur e.file
      · simp only [add_missing, hk, if_true]
        exact ih cur b hfind' hnk
      · simp only [add_missing, hk, Bool.false_eq_true, if_false]
        refine ih _ _ hfind' ?_
        rw [hasKey_append]
        simp only [hnk, Bool.false_or]
        unfold hasKey
        rw [alookup_cons]
        simp only [hf, Bool.false_eq_true, if_false]
        rfl

theorem add_missing_flag (vts : List VtsExpression) (cur : List (String × YamlEntry))
    (b : Bool) :
    (add_missing vts cur b).2 = true ↔
      b = true ∨ ∃ e ∈ vts, hasKey cur e.file = false := by
  induction vts generalizing cur b with
  | nil => simp [add_missing]
  | cons e rest ih =>
    by_cases hk : hasKey cur e.file
    · simp only [add_missing, hk, if_true]
      rw [ih]
      constructor
      · rintro (hb | ⟨e0, he0, hke0⟩)
        · exact Or.inl hb
        · exact Or.inr ⟨e0, List.mem_cons_of_mem _ he0, hke0⟩
      · rintro (hb | ⟨e0, he0, hke0⟩)
        · exact Or.inl hb
        · rcases List.mem_cons.mp he0 with he0 | he0
          · subst he0
            rw [hk] at hke0
            simp at hke0
          · exact Or.inr ⟨e0, he0, hke0⟩
    · simp only [add_missing, hk, Bool.false_eq_true, if_false]
      rw [ih]
      simp only [true_or, true_iff]
      exact Or.inr ⟨e, List.mem_cons_self _ _, by simp [hk]⟩

/-! ### Claim C7: one synchronization pass -/

/-- C7: one pass of `_update_config_file` keeps every local entry whose
key is also a remote file key, synthesizes the placeholder entry for every
remote file key absent locally (from the first remote occurrence of that
file), removes every local key with no matching remote file key, and
reports a rewrite of the persisted mapping exactly when at least one entry
was added or removed. -/
theorem C7_sync_merge (vts : List VtsExpression) (yaml : List (String × YamlEntry)) :
    (∀ (f : String) (e : YamlEntry), alookup yaml f = some e →
      (vts_files vts).contains f = true →
      alookup (update_config_file vts yaml).1 f = some e) ∧
    (∀ ex : VtsExpression, vts.find? (fun e0 => e0.file == ex.file) = some ex →
      hasKey yaml ex.file = false →
      alookup (update_config_file vts yaml).1 ex.file = some (synth_entry ex)) ∧
    (∀ f : String, (vts_files vts).contains f = false →
      alookup (update_config_file vts yaml).1 f = none) ∧
    ((update_config_file vts yaml).2 = true ↔
      (∃ ex ∈ vts, hasKey yaml ex.file = false) ∨
      (∃ kv ∈ yaml, (vts_files vts).contains kv.1 = false)) := by
  refine ⟨?_, ?_, ?_, ?_⟩
  · intro f e hl hc
    show alookup ((add_missing vts yaml false).1.filter
      (fun kv => (vts_files vts).contains kv.1)) f = some e
    rw [alookup_filter_key, if_pos hc]
    exact add_missing_lookup_present vts yaml false f e hl
  · intro ex hfind hnk
    have hc : (vts_files vts).contains ex.file = true := by
      apply contains_of_mem_str
      exact List.mem_map_of_mem _ (List.mem_of_find?_eq_some hfind)
    show alookup ((add_missing vts yaml false).1.filter
      (fun kv => (vts_files vts).contains kv.1)) ex.file = some (synth_entry ex)
    rw [alookup_filter_key, if_pos hc]
    exact add_missing_adds vts yaml false ex hfind hnk
  · intro f hc
    show alookup ((add_missing vts yaml false).1.filter
      (fun kv => (vts_files vts).contains kv.1)) f = none
    rw [alookup_filter_key, hc]
    rfl
  · show ((add_missing vts yaml false).2 ||
      (add_missing vts yaml false).1.any (fun kv => !((vts_files vts).contains kv.1)))
        = true ↔ _
    rw [Bool.or_eq_true, add_missing_flag]
    obtain ⟨extra, h1, h2⟩ := add_missing_append vts yaml false
    rw [h1, List.any_append]
    have hextra : extra.any (fun kv => !((vts_files vts).contains kv.1)) = false := by
      cases hx : extra.any (fun kv => !((vts_files vts).contains kv.1)) with
      | false => rfl
      | true =>
        obtain ⟨kv, hkv, hp⟩ := List.any_eq_true.mp hx
        rw [contains_of_mem_str _ _ (h2 kv hkv)] at hp
        simp at hp
    rw [hextra, Bool.or_false, List.any_eq_true]
    constructor
    · rintro ((hb | hx) | hx)
      · simp at hb
      · exact Or.inl hx
      · obtain ⟨kv, hkv, hp⟩ := hx
        refine Or.inr ⟨kv, hkv, ?_⟩
        revert hp
        cases (vts_files vts).contains kv.1 <;> simp
    · rintro (hx | ⟨kv, hkv, hp⟩)
      · exact Or.inl (Or.inr hx)
      · exact Or.inr ⟨kv, hkv, by rw [hp]; rfl⟩

/-- The Scenario D remote action list. -/
def c7_vts : List VtsExpression := [⟨"a.json", "A", "H"⟩]

/-- C7 witness: Scenario D — one remote action against an empty local
mapping yields exactly the synthesized placeholder entry and reports a
rewrite of the mapping file. -/
theorem C7_sync_merge_witness :
    alookup (update_config_file c7_vts []).1 "a.json" =
      some (synth_entry ⟨"a.json", "A", "H"⟩) ∧
    (update_config_file c7_vts []).2 = true := by
  have hc := C7_sync_merge c7_vts []
  refine ⟨hc.2.1 ⟨"a.json", "A", "H"⟩ (by decide) (by decide), ?_⟩
  exact hc.2.2.2.mpr (Or.inl ⟨⟨"a.json", "A", "H"⟩, by decide, by decide⟩)

theorem add_missing_covers (vts : List VtsExpression) :
    ∀ (cur : List (String × YamlEntry)) (b : Bool) (e : VtsExpression), e ∈ vts →
      hasKey (add_missing vts cur b).1 e.file = true := by
  induction vts with
  | nil =>
    intro cur b e he
    simp at he
  | cons e0 rest ih =>
    intro cur b e he
    by_cases hk : hasKey cur e0.file
    · simp only [add_missing, hk, if_true]
      rcases List.mem_cons.mp he with he | he
      · subst he
        exact add_missing_hasKey rest cur b e.file hk
      · exact ih cur b e he
    · simp only [add_missing, hk, Bool.false_eq_true, if_false]
      rcases List.mem_cons.mp he with he | he
      · subst he
        apply add_missing_hasKey
        have hnone : alookup cur e.file = none := by
          unfold hasKey at hk
          cases hv : alookup cur e.file with
          | none => rfl
          | some v => rw [hv] at hk; simp at hk
        unfold hasKey
        rw [alookup_append_right _ _ _ hnone, alookup_cons]
        simp
      · exact ih _ _ e he

theorem add_missing_noop (vts : List VtsExpression) (cur : List (String × YamlEntry))
    (b : Bool) (h : ∀ e ∈ vts, hasKey cur e.file = true) :
    add_missing vts cur b = (cur, b) := by
  induction vts with
  | nil => rfl
  | cons e rest ih =>
    simp only [add_missing, h e (List.mem_cons_self _ _), if_true]
    exact ih (fun e' he' => h e' (List.mem_cons_of_mem _ he'))

theorem update_config_file_noop (vts : List VtsExpression)
    (y1 : List (String × YamlEntry))
    (hcov : ∀ e ∈ vts, hasKey y1 e.file = true)
    (hkeys : ∀ kv ∈ y1, (vts_files vts).contains kv.1 = true) :
    update_config_file vts y1 = (y1, false) := by
  have hadd : add_missing vts y1 false = (y1, false) := add_missing_noop vts y1 false hcov
  have hfilter : y1.filter (fun kv => (vts_files vts).contains kv.1) = y1 := by
    apply List.filter_eq_self.mpr
    intro kv hkv
    simpa using hkeys kv hkv
  have hany : (y1.any fun kv => !((vts_files vts).contains kv.1)) = false := by
    cases hx : (y1.any fun kv => !((vts_files vts).contains kv.1)) with
    | false => rfl
    | true =>
      obtain ⟨kv, hkv, hp⟩ := List.any_eq_true.mp hx
      rw [hkeys kv hkv] at hp
      simp at hp
  have h1 : update_config_file vts y1 =
      ((prune_stale (add_missing vts y1 false).1 (vts_files vts)).1,
       (add_missing vts y1 false).2 ||
         (prune_stale (add_missing vts y1 false).1 (vts_files vts)).2) := rfl
  rw [h1, hadd]
  show ((prune_stale y1 (vts_files vts)).1, false || (prune_stale y1 (vts_files vts)).2) =
    (y1, false)
  simp only [prune_stale]
  rw [hfilter, hany]
  rfl

/-! ### Claim C8: synchronizer idempotence -/

/-- C8: running `synchronize_and_get_map` a second time, on the same
remote expression list and the mapping produced by the first run, yields
the session table of the first run and the same mapping, and reports no write
of the persisted mapping file. -/
theorem C8_idempotent (vts : List VtsExpression) (yaml : List (String × YamlEntry)) :
    synchronize_and_get_map vts (synchronize_and_get_map vts yaml).2.1 =
      ((synchronize_and_get_map vts yaml).1,
       (synchronize_and_get_map vts yaml).2.1, false) := by
  by_cases hemp : vts.isEmpty
  · simp [synchronize_and_get_map, hemp]
  · have hkeys : ∀ kv ∈ (update_config_file vts yaml).1,
        (vts_files vts).contains kv.1 = true := by
      intro kv hkv
      have hkv' : kv ∈ List.filter (fun kv => (vts_files vts).contains kv.1)
          (add_missing vts yaml false).1 := hkv
      exact (List.mem_filter.mp hkv').2
    have hcov : ∀ e ∈ vts, hasKey (update_config_file vts yaml).1 e.file = true := by
      intro e he
      have hc : (vts_files vts).contains e.file = true :=
        contains_of_mem_str _ _ (List.mem_map_of_mem _ he)
      show ((alookup ((add_missing vts yaml false).1.filter
        (fun kv => (vts_files vts).contains kv.1)) e.file).isSome) = true
      rw [alookup_filter_key, if_pos hc]
      exact add_missing_covers vts yaml false e he
    have hupd : update_config_file vts (update_config_file vts yaml).1 =
        ((update_config_file vts yaml).1, false) :=
      update_config_file_noop vts (update_config_file vts yaml).1 hcov hkeys
    simp only [synchronize_and_get_map, if_neg hemp]
    simp [hupd]

/-! ### Helper lemmas for the session-map builder -/

theorem alookup_foldl_aset (kws : List String) (v : TriggerData)
    (acc : List (String × TriggerData)) (k : String) :
    alookup (kws.foldl (fun a kw => aset a (lower_str kw) v) acc) k =
      if ∃ kw ∈ kws, lower_str kw = k then some v else alookup acc k := by
  induction kws generalizing acc with
  | nil => simp
  | cons kw rest ih =>
    simp only [List.foldl_cons]
    rw [ih]
    by_cases hrest : ∃ kw0 ∈ rest, lower_str kw0 = k
    · rw [if_pos hrest]
      obtain ⟨kw0, hkw0, hl⟩ := hrest
      rw [if_pos ⟨kw0, List.mem_cons_of_mem _ hkw0, hl⟩]
    · rw [if_neg hrest]
      by_cases hk : lower_str kw = k
      · rw [← hk, alookup_aset_self]
        rw [if_pos ⟨kw, List.mem_cons_self _ _, rfl⟩]
      · rw [alookup_aset_ne _ _ _ _ hk]
        have hnone : ¬∃ kw0 ∈ kw :: rest, lower_str kw0 = k := by
          rintro ⟨kw0, hkw0, hl⟩
          rcases List.mem_cons.mp hkw0 with h | h
          · subst h
            exact hk hl
          · exact hrest ⟨kw0, h, hl⟩
        rw [if_neg hnone]

theorem add_keywords_lookup (hid : String) (data : YamlEntry)
    (acc : List (String × TriggerData)) (k : String) :
    alookup (add_keywords hid data acc) k =
      if ∃ kw ∈ data.keywords, lower_str kw = k
      then some ⟨hid, some (data.cooldown_s.getD 60)⟩ else alookup acc k :=
  alookup_foldl_aset _ _ _ _

theorem build_session_go_hasKey (vts : List VtsExpression) :
    ∀ (yaml : List (String × YamlEntry)) (acc : List (String × TriggerData)) (k : String),
      hasKey (build_session_go vts yaml acc) k = true ↔
        hasKey acc k = true ∨
        ∃ f e, (f, e) ∈ yaml ∧
          (∃ hid, file_to_hotkey_id vts f = some hid ∧ hid ≠ "") ∧
          ∃ kw ∈ e.keywords, lower_str kw = k := by
  intro yaml
  induction yaml with
  | nil =>
    intro acc k
    simp [build_session_go]
  | cons fe rest ih =>
    intro acc k
    rcases fe with ⟨f, data⟩
    cases hh : file_to_hotkey_id vts f with
    | none =>
      have hgo : build_session_go vts ((f, data) :: rest) acc =
          build_session_go vts rest acc := by
        simp [build_session_go, hh]
      rw [hgo, ih]
      constructor
      · rintro (h | ⟨f0, e0, hmem, hhid, hkw⟩)
        · exact Or.inl h
        · exact Or.inr ⟨f0, e0, List.mem_cons_of_mem _ hmem, hhid, hkw⟩
      · rintro (h | ⟨f0, e0, hmem, ⟨hid0, hh0, hne0⟩, hkw⟩)
        · exact Or.inl h
        · rcases List.mem_cons.mp hmem with heq | hmem'
          · rw [Prod.mk.injEq] at heq
            rw [heq.1, hh] at hh0
            exact Option.noConfusion hh0
          · exact Or.inr ⟨f0, e0, hmem', ⟨hid0, hh0, hne0⟩, hkw⟩
    | some hid =>
      by_cases hne : hid = ""
      · have hgo : build_session_go vts ((f, data) :: rest) acc =
            build_session_go vts rest acc := by
          simp [build_session_go, hh, hne]
        rw [hgo, ih]
        constructor
        · rintro (h | ⟨f0, e0, hmem, hhid, hkw⟩)
          · exact Or.inl h
          · exact Or.inr ⟨f0, e0, List.mem_cons_of_mem _ hmem, hhid, hkw⟩
        · rintro (h | ⟨f0, e0, hmem, ⟨hid0, hh0, hne0⟩, hkw⟩)
          · exact Or.inl h
          · rcases List.mem_cons.mp hmem with heq | hmem'
            · rw [Prod.mk.injEq] at heq
              rw [heq.1, hh] at hh0
              have hids : hid = hid0 := Option.some.inj hh0
              exact absurd hne (by rw [hids]; exact fun hx => hne0 hx)
            · exact Or.inr ⟨f0, e0, hmem', ⟨hid0, hh0, hne0⟩, hkw⟩
      · have hb : (hid != "") = true := bne_iff_ne.mpr hne
        have hgo : build_session_go vts ((f, data) :: rest) acc =
            build_session_go vts rest (add_keywords hid data acc) := by
          simp [build_session_go, hh, hb]
        rw [hgo, ih]
        have haddk : hasKey (add_keywords hid data acc) k = true ↔
            (∃ kw ∈ data.keywords, lower_str kw = k) ∨ hasKey acc k = true := by
          unfold hasKey
          rw [add_keywords_lookup]
          by_cases hx : ∃ kw ∈ data.keywords, lower_str kw = k
          · simp [hx]
          · simp [hx]
        rw [haddk]
        constructor
        · rintro ((hkw | h) | ⟨f0, e0, hmem, hhid, hkw⟩)
          · exact Or.inr ⟨f, data, List.mem_cons_self _ _, ⟨hid, hh, hne⟩, hkw⟩
          · exact Or.inl h
          · exact Or.inr ⟨f0, e0, List.mem_cons_of_mem _ hmem, hhid, hkw⟩
        · rintro (h | ⟨f0, e0, hmem, hhid, hkw⟩)
          · exact Or.inl (Or.inr h)
          · rcases List.mem_cons.mp hmem with heq | hmem'
            · rw [Prod.mk.injEq] at heq
              rw [heq.2] at hkw
              exact Or.inl (Or.inl hkw)
            · exact Or.inr ⟨f0, e0, hmem', hhid, hkw⟩

theorem build_session_go_sound (vts : List VtsExpression) :
    ∀ (yaml : List (String × YamlEntry)) (acc : List (String × TriggerData))
      (k : String) (d : TriggerData),
      alookup (build_session_go vts yaml acc) k = some d →
      alookup acc k = some d ∨
      ∃ f e, (f, e) ∈ yaml ∧ file_to_hotkey_id vts f = some d.hotkeyID ∧
        d.hotkeyID ≠ "" ∧ (∃ kw ∈ e.keywords, lower_str kw = k) ∧
        d.cooldown_s = some (e.cooldown_s.getD 60) := by
  intro yaml
  induction yaml with
  | nil =>
    intro acc k d h
    exact Or.inl (by simpa [build_session_go] using h)
  | cons fe rest ih =>
    intro acc k d h
    rcases fe with ⟨f, data⟩
    cases hh : file_to_hotkey_id vts f with
    | none =>
      have hgo : build_session_go vts ((f, data) :: rest) acc =
          build_session_go vts rest acc := by
        simp [build_session_go, hh]
      rw [hgo] at h
      rcases ih acc k d h with h' | ⟨f0, e0, hmem, hrest⟩
      · exact Or.inl h'
      · exact Or.inr ⟨f0, e0, List.mem_cons_of_mem _ hmem, hrest⟩
    | some hid =>
      by_cases hne : hid = ""
      · have hgo : build_session_go vts ((f, data) :: rest) acc =
            build_session_go vts rest acc := by
          simp [build_session_go, hh, hne]
        rw [hgo] at h
        rcases ih acc k d h with h' | ⟨f0, e0, hmem, hrest⟩
        · exact Or.inl h'
        · exact Or.inr ⟨f0, e0, List.mem_cons_of_mem _ hmem, hrest⟩
      · have hb : (hid != "") = true := bne_iff_ne.mpr hne
        have hgo : build_session_go vts ((f, data) :: rest) acc =
            build_session_go vts rest (add_keywords hid data acc) := by
          simp [build_session_go, hh, hb]
        rw [hgo] at h
        rcases ih _ k d h with h' | ⟨f0, e0, hmem, hrest⟩
        · rw [add_keywords_lookup] at h'
          by_cases hx : ∃ kw ∈ data.keywords, lower_str kw = k
          · rw [if_pos hx] at h'
            have hd : (⟨hid, some (data.cooldown_s.getD 60)⟩ : TriggerData) = d :=
              Option.some.inj h'
            subst hd
            exact Or.inr ⟨f, data, List.mem_cons_self _ _, hh, hne, hx, rfl⟩
          · rw [if_neg hx] at h'
            exact Or.inl h'
        · exact Or.inr ⟨f0, e0, List.mem_cons_of_mem _ hmem, hrest⟩

/-! ### Claim C4: the resolved runtime trigger table -/

/-- A mapping entry with an uppercase keyword "Hi" and display name
"Wave", whose remote hotkey is live. -/
def c4_yaml : List (String × YamlEntry) := [("f.json", ⟨"Wave", ["Hi"], some 10⟩)]

/-- The remote expression list matching `c4_yaml`. -/
def c4_vts : List VtsExpression := [⟨"f.json", "Wave", "H"⟩]

/-- C4 counterexample: the resolved table contains the lowercased keyword
key "hi" but NOT the lowercased display name key "wave" — the display name
is never added by the `ExpressionService` builder. -/
theorem C4_counterexample :
    alookup (build_session_expression_map c4_yaml c4_vts) "wave" = none ∧
    alookup (build_session_expression_map c4_yaml c4_vts) "hi" =
      some ⟨"H", some 10⟩ :=
  ⟨rfl, rfl⟩

/-- C4 amended: the resolved table has exactly one key per explicit
keyword lowercased, for the entries whose file has a truthy live remote
hotkey; every value is the trigger data of such an entry (the live hotkey
id and the entry cooldown, defaulted to 60).  The bare display name is not
added as a key. -/
theorem C4_keywords_only (yaml : List (String × YamlEntry)) (vts : List VtsExpression)
    (k : String) :
    (hasKey (build_session_expression_map yaml vts) k = true ↔
      ∃ f e, (f, e) ∈ yaml ∧
        (∃ hid, file_to_hotkey_id vts f = some hid ∧ hid ≠ "") ∧
        ∃ kw ∈ e.keywords, lower_str kw = k) ∧
    (∀ d, alookup (build_session_expression_map yaml vts) k = some d →
      ∃ f e, (f, e) ∈ yaml ∧ file_to_hotkey_id vts f = some d.hotkeyID ∧
        d.hotkeyID ≠ "" ∧ (∃ kw ∈ e.keywords, lower_str kw = k) ∧
        d.cooldown_s = some (e.cooldown_s.getD 60)) := by
  constructor
  · unfold build_session_expression_map
    rw [build_session_go_hasKey vts yaml [] k]
    simp [hasKey, alookup_nil]
  · intro d hd
    rcases build_session_go_sound vts yaml [] k d hd with h | h
    · rw [alookup_nil] at h
      exact Option.noConfusion h
    · exact h

/-- C4 witness: the amended theorem applied to the concrete table — the
key "hi" holds the entry of "f.json" with the live hotkey and the local
cooldown. -/
theorem C4_keywords_only_witness :
    ∃ f e, (f, e) ∈ c4_yaml ∧
      file_to_hotkey_id c4_vts f = some (TriggerData.mk "H" (some 10)).hotkeyID ∧
      (TriggerData.mk "H" (some 10)).hotkeyID ≠ "" ∧
      (∃ kw ∈ e.keywords, lower_str kw = "hi") ∧
      (TriggerData.mk "H" (some 10)).cooldown_s = some (e.cooldown_s.getD 60) :=
  (C4_keywords_only c4_yaml c4_vts "hi").2 ⟨"H", some 10⟩ rfl

end VTS
